import Mathlib

/-!
Verification development for the SparkSDR websocket demo client
(`src/model.rs`).  The `Model` struct and its mutation operations are
shallowly embedded: machine floats (`f32`) are modelled as rationals
together with an explicit round-to-nearest-even rounding step of 24-bit
precision applied after every arithmetic operation, exactly as IEEE-754
single precision behaves for the magnitudes handled by this program
(normal, non-overflowing values).  Side effects (websocket frames,
console logging, HTTP fetches) are modelled as an explicit effect list
returned alongside the updated model.  External library types
(`ham_rs::Call`, `Receiver`, `Spot`, ...) are embedded as plain records
holding the fields and derived data the program reads from them; the
`FetchTask` handle stored inside `CallsignInfo::Requested` is an opaque
cancellation token never inspected by the code, so it is dropped from
the embedding.
-/

set_option maxRecDepth 8000

/-- `uuid::Uuid`, abstracted to a number (only compared for equality). -/
abbrev Uuid := Nat

/-- `ham_rs::rig::Mode` — a named demodulation mode. -/
structure Mode where
  mode : String
deriving DecidableEq

/-- `ham_rs::countries::Country`.  The program only ever distinguishes
`UnitedStates` from everything else, so the remaining variants are
collapsed into `other`. -/
inductive Country where
  | UnitedStates : Country
  | other : String → Country
deriving DecidableEq

/-- `ham_rs::Call`: a callsign string plus derived metadata.  `call` is
the normalized callsign string returned by `Call::call()`; `callPrefix`
is `Call::prefix()`; `country` is `Call::country()` with `Result`
modelled as `Option`; `state`/`op` carry the enrichment payload a
lookup can attach. -/
structure Call where
  call : String
  callPrefix : Option String
  country : Option Country
  state : Option String
  op : Option String
deriving DecidableEq

/-- `ham_rs::rig::Spot` — one decoded-signal report. -/
structure Spot where
  call : Call
  time : Nat
  snr : Int
  dt : ℚ
  frequency : ℚ
  tunedFrequency : ℚ
  mode : Mode
  distance : Option ℚ
  msg : String
deriving DecidableEq

/-- `ham_rs::rig::Receiver` — a tunable channel; `frequency` is an `f32`
value (modelled as the exact rational it denotes). -/
structure Receiver where
  id : Uuid
  frequency : ℚ
  mode : Mode
deriving DecidableEq

instance : Inhabited Receiver := ⟨⟨0, 0, ⟨""⟩⟩⟩

/-- `ham_rs::rig::Radio`. -/
structure Radio where
  id : Uuid
  name : String
  running : Bool
deriving DecidableEq

/-- `ham_rs::rig::Version`. -/
structure Version where
  host : String
  host_version : String
  protocol_version : String
deriving DecidableEq

/-- `ham_rs::log::LogEntry` — an imported ADIF record; the model only
reads its callsign-derived data. -/
structure LogEntry where
  call : Call
deriving DecidableEq

/-- The tri-state callsign cache entry (`CallsignInfo` in `model.rs`).
`Requested` holds the `Call` of an in-flight lookup (the `FetchTask`
handle it also carries in the source is an opaque token, dropped here). -/
inductive CallsignInfo where
  | Requested : Call → CallsignInfo
  | Found : Call → CallsignInfo
  | NotFound : Call → CallsignInfo
deriving DecidableEq

instance : Inhabited CallsignInfo := ⟨CallsignInfo.NotFound ⟨"", none, none, none, none⟩⟩

/-- `CallsignInfo::call()` — project the stored `Call`. -/
def CallsignInfo.call : CallsignInfo → Call
  | CallsignInfo.Requested c => c
  | CallsignInfo.Found c => c
  | CallsignInfo.NotFound c => c

/-- Whether the entry is in the `Found` state. -/
def CallsignInfo.isFound : CallsignInfo → Bool
  | CallsignInfo.Found _ => true
  | _ => false

/-- The outbound commands built by `model.rs` (`ham_rs::rig::Command`).
Only the variants the embedded operations construct are listed. -/
inductive Command where
  | SetMode : Mode → Uuid → Command
  | SetFrequency : String → Uuid → Command
deriving DecidableEq

/-- Observable side effects of a model operation, in program order:
`sendFrame` is a successful `wss.send_with_str` of the serialized
command; `logSent` / `logNotConnected` are the two console lines of
`send_command`; `log` is any other console line; `fetchStart` is an
HTTP lookup issued through `FetchService`; `wsOpen` is `WebSocket::new`;
`wsClose` would be an explicit close/teardown of a connection (the
source never performs one). -/
inductive Effect where
  | sendFrame : Command → Effect
  | logSent : Command → Effect
  | logNotConnected : Command → Effect
  | log : String → Effect
  | fetchStart : String → Effect
  | wsOpen : String → Effect
  | wsClose : Nat → Effect
deriving DecidableEq

/-- A command was handed to the send path (`send_command`): it is either
transmitted (connected) or logged as undeliverable (disconnected). -/
def emitsCommand (es : List Effect) (c : Command) : Prop :=
  Effect.sendFrame c ∈ es ∨ Effect.logNotConnected c ∈ es

/-! ### IEEE-754 single precision, embedded on ℚ

An `f32` arithmetic operation computes the exact rational result and
rounds it to 24 significant binary digits, round-to-nearest with ties
to even.  `normLoop` scales a positive rational into `[2^23, 2^24)`
(collecting the binary exponent), `tieRound` performs the integer
rounding, and `roundF32` reassembles the value.  Exponent fuel of 128
covers every magnitude reachable by the program's frequency arithmetic
(normal f32 range); overflow to infinity and subnormal underflow are
outside the embedded range. -/

def normLoop (fuel : Nat) (q : ℚ) (e : Int) : ℚ × Int :=
  match fuel with
  | 0 => (q, e)
  | n + 1 =>
    if q < 8388608 then normLoop n (q * 2) (e - 1)
    else if 16777216 ≤ q then normLoop n (q / 2) (e + 1)
    else (q, e)

/-- Round a scaled significand to an integer, ties to even. -/
def tieRound (s : ℚ) : Int :=
  if s - (⌊s⌋ : ℚ) < 1/2 then ⌊s⌋
  else if 1/2 < s - (⌊s⌋ : ℚ) then ⌊s⌋ + 1
  else if ⌊s⌋ % 2 = 0 then ⌊s⌋ else ⌊s⌋ + 1

/-- Round a positive rational to the nearest f32 value. -/
def roundPos (q : ℚ) : ℚ :=
  ((tieRound (normLoop 128 q 0).1 : ℚ)) * (2 : ℚ) ^ (normLoop 128 q 0).2

/-- Round an arbitrary rational to the nearest f32 value. -/
def roundF32 (q : ℚ) : ℚ :=
  if q = 0 then 0
  else if 0 < q then roundPos q
  else - roundPos (-q)

/-- `f32` addition: exact sum, then one rounding. -/
def f32add (a b : ℚ) : ℚ := roundF32 (a + b)

/-- `f32` subtraction: exact difference, then one rounding. -/
def f32sub (a b : ℚ) : ℚ := roundF32 (a - b)

/-- Rust's `as i32` on a float: truncation toward zero, saturating at
the `i32` bounds. -/
def f32toI32 (q : ℚ) : Int :=
  max (-(2 ^ 31)) (min (2 ^ 31 - 1) (if 0 ≤ q then ⌊q⌋ else ⌈q⌉))

/-- `Iterator::position`: index of the first element satisfying `p`. -/
def listPosition {α : Type} (p : α → Bool) : List α → Option Nat
  | [] => none
  | x :: xs => if p x then some 0 else (listPosition p xs).map (fun n => n + 1)

/-! ### The model state and its operations -/

/-- The state-carrying fields of `Model` in `model.rs` (UI/service
handles that carry no protocol state are omitted).  `wss` stores the
current websocket handle, if any; `nextConn` is an allocation counter
standing in for the freshness of each `WebSocket::new` result. -/
structure Model where
  wss : Option Nat
  nextConn : Nat
  receivers : List Receiver
  radios : List Radio
  defaultReceiver : Option Uuid
  version : Option Version
  spots : List Spot
  showReceiverList : Bool
  importLog : Option (List LogEntry)
  callsigns : List CallsignInfo
deriving DecidableEq

/-- Effects produced by `send_command` for a given connection state:
transmit-and-log when connected, error line when not. -/
def sendEffects (m : Model) (cmd : Command) : List Effect :=
  match m.wss with
  | some _ => [Effect.sendFrame cmd, Effect.logSent cmd]
  | none => [Effect.logNotConnected cmd]

/-- `Model::send_command` — serialize and transmit if connected,
otherwise log the failure and drop the command. -/
def Model.send_command (m : Model) (cmd : Command) : Model × List Effect :=
  (m, sendEffects m cmd)

/-- `Model::is_connected`. -/
def Model.is_connected (m : Model) : Bool :=
  match m.wss with
  | some _ => true
  | none => false

/-- `Model::connect` — builds a fresh `WebSocket`, registers its
callbacks, and overwrites `self.wss` with the new handle.  The prior
handle (if any) is merely replaced; the source contains no close or
teardown call. -/
def Model.connect (m : Model) (ws : String) : Model × List Effect :=
  ({ m with wss := some m.nextConn, nextConn := m.nextConn + 1 }, [Effect.wsOpen ws])

/-- `Model::disconnect` — drops the stored handle (again with no
explicit close of the underlying socket). -/
def Model.disconnect (m : Model) : Model :=
  { m with wss := none }

/-- `Model::change_receiver_mode`. -/
def Model.change_receiver_mode (m : Model) (receiver_id : Uuid) (mode : Mode) : Model × List Effect :=
  match listPosition (fun i => i.id == receiver_id) m.receivers with
  | some index =>
    let r := m.receivers.getD index default
    let m2 : Model := { m with receivers := m.receivers.set index { r with mode := mode } }
    m2.send_command (Command.SetMode mode receiver_id)
  | none => (m, [])

/-- The cascade of nine `if digit == k { frequency += step }` statements
in `Model::frequency_up` (each `+=` is one f32 addition). -/
def stepChainUp (f : ℚ) (digit : Int) : ℚ :=
  let f := if digit = 0 then f32add f 100000000 else f
  let f := if digit = 1 then f32add f 10000000 else f
  let f := if digit = 2 then f32add f 1000000 else f
  let f := if digit = 3 then f32add f 100000 else f
  let f := if digit = 4 then f32add f 10000 else f
  let f := if digit = 5 then f32add f 1000 else f
  let f := if digit = 6 then f32add f 100 else f
  let f := if digit = 7 then f32add f 10 else f
  if digit = 8 then f32add f 1 else f

/-- The matching cascade of `frequency -= step` in `Model::frequency_down`. -/
def stepChainDown (f : ℚ) (digit : Int) : ℚ :=
  let f := if digit = 0 then f32sub f 100000000 else f
  let f := if digit = 1 then f32sub f 10000000 else f
  let f := if digit = 2 then f32sub f 1000000 else f
  let f := if digit = 3 then f32sub f 100000 else f
  let f := if digit = 4 then f32sub f 10000 else f
  let f := if digit = 5 then f32sub f 1000 else f
  let f := if digit = 6 then f32sub f 100 else f
  let f := if digit = 7 then f32sub f 10 else f
  if digit = 8 then f32sub f 1 else f

/-- `Model::frequency_up` — step the selected digit, then send a
`SetFrequency` command carrying the updated frequency cast to `i32` and
rendered as a string. -/
def Model.frequency_up (m : Model) (receiver_id : Uuid) (digit : Int) : Model × List Effect :=
  match listPosition (fun i => i.id == receiver_id) m.receivers with
  | some index =>
    let r := m.receivers.getD index default
    let f := stepChainUp r.frequency digit
    let m2 : Model := { m with receivers := m.receivers.set index { r with frequency := f } }
    m2.send_command (Command.SetFrequency (toString (f32toI32 f)) receiver_id)
  | none => (m, [])

/-- `Model::frequency_down`. -/
def Model.frequency_down (m : Model) (receiver_id : Uuid) (digit : Int) : Model × List Effect :=
  match listPosition (fun i => i.id == receiver_id) m.receivers with
  | some index =>
    let r := m.receivers.getD index default
    let f := stepChainDown r.frequency digit
    let m2 : Model := { m with receivers := m.receivers.set index { r with frequency := f } }
    m2.send_command (Command.SetFrequency (toString (f32toI32 f)) receiver_id)
  | none => (m, [])

/-- The callsign-cache update of `Model::cache_callsign_info`: replace
the first entry whose callsign matches (if any), else append a new
`Found` entry. -/
def cacheCallsigns (l : List CallsignInfo) (call : Call) : List CallsignInfo :=
  match listPosition (fun c => c.call.call == call.call) l with
  | some index => l.set index (CallsignInfo.Found call)
  | none => l ++ [CallsignInfo.Found call]

/-- `Model::cache_callsign_info` — retroactively overwrite the `Call` of
every stored spot with a matching callsign, then record the callsign as
`Found` in the cache. -/
def Model.cache_callsign_info (m : Model) (call : Call) : Model :=
  { m with
    spots := m.spots.map (fun s => if s.call.call == call.call then { s with call := call } else s),
    callsigns := cacheCallsigns m.callsigns call }

/-- `Model::trim_spots` — `drain(0..len-limit)` drops the oldest
entries, keeping the most recent `limit` spots in order. -/
def Model.trim_spots (m : Model) (limit : Nat) : Model :=
  if m.spots.length > limit then
    { m with spots := m.spots.drop (m.spots.length - limit) }
  else m

/-- `Model::add_spot` — enrich the incoming spot from the cache when a
`Found` entry exists; when no entry exists and the callsign's prefix
resolves with country `UnitedStates`, issue a background lookup and
record a `Requested` entry; finally push the spot. -/
def Model.add_spot (m : Model) (spot : Spot) : Model × List Effect :=
  match listPosition (fun c => c.call.call == spot.call.call) m.callsigns with
  | some index =>
    match m.callsigns.getD index default with
    | CallsignInfo.Found call =>
      ({ m with spots := m.spots ++ [{ spot with call := call }] }, [])
    | _ =>
      ({ m with spots := m.spots ++ [spot] }, [])
  | none =>
    match spot.call.callPrefix with
    | some p =>
      if spot.call.country = some Country.UnitedStates then
        ({ m with
            callsigns := m.callsigns ++ [CallsignInfo.Requested spot.call],
            spots := m.spots ++ [spot] },
          [Effect.fetchStart ("/out/" ++ p ++ "/" ++ spot.call.call ++ ".json")])
      else
        ({ m with spots := m.spots ++ [spot] }, [])
    | none =>
      ({ m with spots := m.spots ++ [spot] }, [])

/-- `Model::update_receiver` — server-originated update; unknown ids are
logged and ignored. -/
def Model.update_receiver (m : Model) (receiver_id : Uuid) (mode : Mode) (frequency : ℚ) : Model × List Effect :=
  match listPosition (fun i => i.id == receiver_id) m.receivers with
  | some index =>
    let r := m.receivers.getD index default
    ({ m with receivers := m.receivers.set index { r with frequency := frequency, mode := mode } }, [])
  | none =>
    (m, [Effect.log ("Attempted to update a receiver that does not exist: " ++ toString receiver_id)])

/-- The spec's step size for digit `d`: `10^(8-d)` Hz. -/
def specStep (d : Int) : ℚ := (10 : ℚ) ^ (8 - d).toNat

/-- Number of cache entries recorded for a given callsign string. -/
def countEntries (l : List CallsignInfo) (cs : String) : Nat :=
  (l.filter (fun e => e.call.call == cs)).length

/-- The dedup invariant: at most one cache entry per callsign. -/
def callsignsUnique (l : List CallsignInfo) : Prop :=
  ∀ cs, countEntries l cs ≤ 1

/-! ### Helper lemmas -/

theorem roundF32_eval (q s v : ℚ) (e n : Int)
    (h0 : 0 < q) (h1 : normLoop 128 q 0 = (s, e)) (h2 : tieRound s = n)
    (h3 : (n : ℚ) * (2 : ℚ) ^ e = v) : roundF32 q = v := by
  rw [roundF32, if_neg h0.ne', if_pos h0, roundPos, h1]
  show ((tieRound s : ℚ)) * (2 : ℚ) ^ e = v
  rw [h2, h3]

theorem listPosition_eq_none_iff {α : Type} (p : α → Bool) (l : List α) :
    listPosition p l = none ↔ ∀ x ∈ l, p x = false := by
  induction l with
  | nil => simp [listPosition]
  | cons x xs ih =>
    by_cases hx : p x
    · simp [listPosition, hx]
    · simp [listPosition, hx, ih]

theorem listPosition_some_lt {α : Type} (p : α → Bool) (l : List α) (i : Nat)
    (h : listPosition p l = some i) : i < l.length := by
  induction l generalizing i with
  | nil => simp [listPosition] at h
  | cons x xs ih =>
    by_cases hx : p x
    · simp [listPosition, hx] at h
      simp only [List.length_cons]
      omega
    · simp [listPosition, hx] at h
      obtain ⟨n, hn, rfl⟩ := h
      have := ih n hn
      simp only [List.length_cons]
      omega

theorem listPosition_some_getD {α : Type} (p : α → Bool) (l : List α) (i : Nat) (d : α)
    (h : listPosition p l = some i) : p (l.getD i d) = true := by
  induction l generalizing i with
  | nil => simp [listPosition] at h
  | cons x xs ih =>
    by_cases hx : p x
    · simp [listPosition, hx] at h
      simp [← h, hx]
    · simp [listPosition, hx] at h
      obtain ⟨n, hn, rfl⟩ := h
      simpa using ih n hn

theorem listPosition_set_of_pred {α : Type} (p : α → Bool) (l : List α) (i : Nat) (v : α)
    (hp : listPosition p l = some i) (hv : p v = true) :
    listPosition p (l.set i v) = some i := by
  induction l generalizing i with
  | nil => simp [listPosition] at hp
  | cons x xs ih =>
    by_cases hx : p x
    · simp [listPosition, hx] at hp
      subst hp
      simp [listPosition, hv]
    · simp [listPosition, hx] at hp
      obtain ⟨n, hn, rfl⟩ := hp
      simp [listPosition, hx, ih n hn]

theorem getD_set_self {α : Type} (l : List α) (i : Nat) (v d : α) (h : i < l.length) :
    (l.set i v).getD i d = v := by
  induction l generalizing i with
  | nil => simp at h
  | cons x xs ih =>
    cases i with
    | zero => simp
    | succ n => simpa using ih n (by simpa using h)

theorem set_getD_self {α : Type} (l : List α) (i : Nat) (d : α) (h : i < l.length) :
    l.set i (l.getD i d) = l := by
  induction l generalizing i with
  | nil => simp at h
  | cons x xs ih =>
    cases i with
    | zero => simp
    | succ n => simpa using ih n (by simpa using h)

theorem countEntries_nil (cs : String) : countEntries [] cs = 0 := rfl

theorem countEntries_cons (e : CallsignInfo) (l : List CallsignInfo) (cs : String) :
    countEntries (e :: l) cs =
      (if e.call.call = cs then 1 else 0) + countEntries l cs := by
  by_cases h : e.call.call = cs
  · simp [countEntries, List.filter_cons, h]
    omega
  · simp [countEntries, List.filter_cons, h]

theorem countEntries_append_single (l : List CallsignInfo) (e : CallsignInfo) (cs : String) :
    countEntries (l ++ [e]) cs =
      countEntries l cs + (if e.call.call = cs then 1 else 0) := by
  by_cases h : e.call.call = cs
  · simp [countEntries, List.filter_append, List.filter_cons, h]
  · simp [countEntries, List.filter_append, List.filter_cons, h]

theorem countEntries_zero_of_pos_none (l : List CallsignInfo) (cs : String)
    (h : listPosition (fun e => e.call.call == cs) l = none) :
    countEntries l cs = 0 := by
  rw [listPosition_eq_none_iff] at h
  induction l with
  | nil => rfl
  | cons x xs ih =>
    have hx := h x (by simp)
    rw [countEntries_cons]
    simp at hx
    simp [hx]
    exact ih (fun y hy => h y (by simp [hy]))

theorem cacheCallsigns_cons_of_eq (x : CallsignInfo) (l : List CallsignInfo) (call : Call)
    (h : x.call.call = call.call) :
    cacheCallsigns (x :: l) call = CallsignInfo.Found call :: l := by
  simp [cacheCallsigns, listPosition, h]

theorem cacheCallsigns_cons_of_ne (x : CallsignInfo) (l : List CallsignInfo) (call : Call)
    (h : ¬ x.call.call = call.call) :
    cacheCallsigns (x :: l) call = x :: cacheCallsigns l call := by
  simp only [cacheCallsigns, listPosition]
  have hb : (x.call.call == call.call) = false := by simpa using h
  simp only [hb, Bool.false_eq_true, if_false]
  cases hp : listPosition (fun c => c.call.call == call.call) l with
  | none => simp [hp]
  | some n => simp [hp, List.set]

theorem countEntries_cacheCallsigns_of_ne (l : List CallsignInfo) (call : Call) (cs : String)
    (h : ¬ call.call = cs) :
    countEntries (cacheCallsigns l call) cs = countEntries l cs := by
  induction l with
  | nil =>
    show countEntries ([] ++ [CallsignInfo.Found call]) cs = countEntries [] cs
    rw [countEntries_append_single]
    simp [CallsignInfo.call, h, countEntries_nil]
  | cons x xs ih =>
    by_cases hx : x.call.call = call.call
    · rw [cacheCallsigns_cons_of_eq x xs call hx, countEntries_cons, countEntries_cons]
      have h1 : ¬ x.call.call = cs := by rw [hx]; exact h
      have h2 : ¬ (CallsignInfo.Found call).call.call = cs := h
      rw [if_neg h1, if_neg h2]
    · rw [cacheCallsigns_cons_of_ne x xs call hx, countEntries_cons, countEntries_cons, ih]

theorem callsignsUnique_cacheCallsigns (l : List CallsignInfo) (call : Call)
    (h : callsignsUnique l) : callsignsUnique (cacheCallsigns l call) := by
  induction l with
  | nil =>
    intro cs
    show countEntries ([] ++ [CallsignInfo.Found call]) cs ≤ 1
    rw [countEntries_append_single]
    rw [countEntries_nil]
    split <;> simp
  | cons x xs ih =>
    have hxs : callsignsUnique xs := by
      intro cs
      have hc := h cs
      rw [countEntries_cons] at hc
      omega
    by_cases hx : x.call.call = call.call
    · rw [cacheCallsigns_cons_of_eq x xs call hx]
      intro cs
      rw [countEntries_cons]
      have hc := h cs
      rw [countEntries_cons] at hc
      by_cases hcs : x.call.call = cs
      · rw [if_pos hcs] at hc
        have hfc : (CallsignInfo.Found call).call.call = cs := by
          show call.call = cs
          rw [← hx]; exact hcs
        rw [if_pos hfc]
        omega
      · have hfc : ¬ (CallsignInfo.Found call).call.call = cs := by
          show ¬ call.call = cs
          rw [← hx]; exact hcs
        rw [if_neg hfc]
        rw [if_neg hcs] at hc
        omega
    · rw [cacheCallsigns_cons_of_ne x xs call hx]
      intro cs
      rw [countEntries_cons]
      have h2 := ih hxs cs
      by_cases hcs : x.call.call = cs
      · rw [if_pos hcs]
        have hne : ¬ call.call = cs := fun hc2 => hx (hcs.trans hc2.symm)
        rw [countEntries_cacheCallsigns_of_ne xs call cs hne]
        have hc := h cs
        rw [countEntries_cons, if_pos hcs] at hc
        omega
      · rw [if_neg hcs]
        omega

theorem listPosition_cacheCallsigns (l : List CallsignInfo) (call : Call) :
    ∃ j, listPosition (fun e => e.call.call == call.call) (cacheCallsigns l call) = some j ∧
      (cacheCallsigns l call).getD j default = CallsignInfo.Found call := by
  induction l with
  | nil =>
    refine ⟨0, ?_, rfl⟩
    simp [cacheCallsigns, listPosition, CallsignInfo.call]
  | cons x xs ih =>
    by_cases hx : x.call.call = call.call
    · refine ⟨0, ?_, ?_⟩
      · rw [cacheCallsigns_cons_of_eq x xs call hx]
        simp [listPosition, CallsignInfo.call]
      · rw [cacheCallsigns_cons_of_eq x xs call hx]
        rfl
    · obtain ⟨j, hj1, hj2⟩ := ih
      refine ⟨j + 1, ?_, ?_⟩
      · rw [cacheCallsigns_cons_of_ne x xs call hx]
        simp [listPosition, hx, hj1]
      · rw [cacheCallsigns_cons_of_ne x xs call hx]
        simpa using hj2

theorem stepChainUp_eq_specStep (f : ℚ) (d : Int) (h0 : 0 ≤ d) (h8 : d ≤ 8) :
    stepChainUp f d = f32add f (specStep d) := by
  interval_cases d <;>
    norm_num [stepChainUp, specStep,
      show Int.toNat 8 = 8 from rfl, show Int.toNat 7 = 7 from rfl,
      show Int.toNat 6 = 6 from rfl, show Int.toNat 5 = 5 from rfl,
      show Int.toNat 4 = 4 from rfl, show Int.toNat 3 = 3 from rfl,
      show Int.toNat 2 = 2 from rfl, show Int.toNat 1 = 1 from rfl,
      show Int.toNat 0 = 0 from rfl]

theorem stepChainDown_eq_specStep (f : ℚ) (d : Int) (h0 : 0 ≤ d) (h8 : d ≤ 8) :
    stepChainDown f d = f32sub f (specStep d) := by
  interval_cases d <;>
    norm_num [stepChainDown, specStep,
      show Int.toNat 8 = 8 from rfl, show Int.toNat 7 = 7 from rfl,
      show Int.toNat 6 = 6 from rfl, show Int.toNat 5 = 5 from rfl,
      show Int.toNat 4 = 4 from rfl, show Int.toNat 3 = 3 from rfl,
      show Int.toNat 2 = 2 from rfl, show Int.toNat 1 = 1 from rfl,
      show Int.toNat 0 = 0 from rfl]

/-- Replace the frequency of the receiver stored at index `i`. -/
def setReceiverFreq (l : List Receiver) (i : Nat) (f : ℚ) : List Receiver :=
  l.set i ({ l.getD i default with frequency := f })

theorem stepChainUp_out (f : ℚ) (d : Int) (h : d < 0 ∨ 8 < d) :
    stepChainUp f d = f := by
  have e0 : ¬ d = 0 := by omega
  have e1 : ¬ d = 1 := by omega
  have e2 : ¬ d = 2 := by omega
  have e3 : ¬ d = 3 := by omega
  have e4 : ¬ d = 4 := by omega
  have e5 : ¬ d = 5 := by omega
  have e6 : ¬ d = 6 := by omega
  have e7 : ¬ d = 7 := by omega
  have e8 : ¬ d = 8 := by omega
  simp [stepChainUp, e0, e1, e2, e3, e4, e5, e6, e7, e8]

theorem stepChainDown_out (f : ℚ) (d : Int) (h : d < 0 ∨ 8 < d) :
    stepChainDown f d = f := by
  have e0 : ¬ d = 0 := by omega
  have e1 : ¬ d = 1 := by omega
  have e2 : ¬ d = 2 := by omega
  have e3 : ¬ d = 3 := by omega
  have e4 : ¬ d = 4 := by omega
  have e5 : ¬ d = 5 := by omega
  have e6 : ¬ d = 6 := by omega
  have e7 : ¬ d = 7 := by omega
  have e8 : ¬ d = 8 := by omega
  simp [stepChainDown, e0, e1, e2, e3, e4, e5, e6, e7, e8]

theorem emitsCommand_sendEffects (m : Model) (cmd : Command) :
    emitsCommand (sendEffects m cmd) cmd := by
  cases h : m.wss <;> simp [sendEffects, emitsCommand, h]

theorem frequency_up_eq (m : Model) (receiver_id : Uuid) (d : Int) (i : Nat)
    (hpos : listPosition (fun r => r.id == receiver_id) m.receivers = some i) :
    m.frequency_up receiver_id d =
      ({ m with receivers := setReceiverFreq m.receivers i (stepChainUp (m.receivers.getD i default).frequency d) },
        sendEffects m (Command.SetFrequency (toString (f32toI32 (stepChainUp (m.receivers.getD i default).frequency d))) receiver_id)) := by
  simp [Model.frequency_up, hpos, Model.send_command, sendEffects, setReceiverFreq]

theorem frequency_down_eq (m : Model) (receiver_id : Uuid) (d : Int) (i : Nat)
    (hpos : listPosition (fun r => r.id == receiver_id) m.receivers = some i) :
    m.frequency_down receiver_id d =
      ({ m with receivers := setReceiverFreq m.receivers i (stepChainDown (m.receivers.getD i default).frequency d) },
        sendEffects m (Command.SetFrequency (toString (f32toI32 (stepChainDown (m.receivers.getD i default).frequency d))) receiver_id)) := by
  simp [Model.frequency_down, hpos, Model.send_command, sendEffects, setReceiverFreq]

theorem frequency_up_none (m : Model) (receiver_id : Uuid) (d : Int)
    (hpos : listPosition (fun r => r.id == receiver_id) m.receivers = none) :
    m.frequency_up receiver_id d = (m, []) := by
  simp [Model.frequency_up, hpos]

theorem frequency_down_none (m : Model) (receiver_id : Uuid) (d : Int)
    (hpos : listPosition (fun r => r.id == receiver_id) m.receivers = none) :
    m.frequency_down receiver_id d = (m, []) := by
  simp [Model.frequency_down, hpos]

/-! ### Concrete fixtures for witnesses and counterexamples -/

/-- An empty model state, as produced by `Model::new` (service handles
aside). -/
def baseModel : Model :=
  ⟨none, 0, [], [], none, none, [], false, none, []⟩

/-- A United States callsign as returned by `Call::new`. -/
def usCall : Call := ⟨"K1ABC", some "K1", some Country.UnitedStates, none, none⟩

/-- The same callsign after enrichment (state and operator attached). -/
def usCallFull : Call := ⟨"K1ABC", some "K1", some Country.UnitedStates, some "CT", some "John"⟩

/-- A German callsign (unsupported jurisdiction for lookups). -/
def dlCall : Call := ⟨"DL1ABC", some "DL1", some (Country.other "Germany"), none, none⟩

/-- A sample spot carrying `usCall`. -/
def usSpot : Spot := ⟨usCall, 0, -12, 1/10, 14074500, 14074000, ⟨"FT8"⟩, none, "CQ K1ABC FN42"⟩

/-- A sample spot carrying `dlCall`. -/
def dlSpot : Spot := { usSpot with call := dlCall }

/-- A numbered filler spot (for order/trimming checks). -/
def sampleSpot (n : Nat) : Spot :=
  ⟨⟨"K1ABC", some "K1", some Country.UnitedStates, none, none⟩, n, 0, 0, 0, 0, ⟨"FT8"⟩, none, "CQ"⟩

/-- A model holding one receiver tuned to 14.074 MHz. -/
def mFreq : Model := { baseModel with receivers := [⟨1, 14074000, ⟨"USB"⟩⟩] }

/-- A model holding one receiver tuned to 2^24 Hz (an f32 whose
neighborhood has spacing 2: the first integer where `+= 1.0` is lossy). -/
def mBig : Model := { baseModel with receivers := [⟨1, 16777216, ⟨"USB"⟩⟩] }

/-- A model holding one receiver tuned to 100 MHz (f32 spacing 8 Hz). -/
def mHuge : Model := { baseModel with receivers := [⟨1, 100000000, ⟨"USB"⟩⟩] }

/-! ### Claim C6 -/

/-- C6: `trim_spots(limit)` on a spot list of length `N > limit` keeps
exactly the last `limit` spots in arrival order (the `N - limit` oldest
are dropped, the rest keep their relative order), and a list of length
`N ≤ limit` is left unchanged. -/
theorem c6_trim_spots (m : Model) (limit : Nat) :
    (m.spots.length > limit →
      m.spots = m.spots.take (m.spots.length - limit) ++ (m.trim_spots limit).spots ∧
      (m.spots.take (m.spots.length - limit)).length = m.spots.length - limit ∧
      (m.trim_spots limit).spots.length = limit) ∧
    (m.spots.length ≤ limit → m.trim_spots limit = m) := by
  constructor
  · intro h
    have hs : (m.trim_spots limit).spots = m.spots.drop (m.spots.length - limit) := by
      simp only [Model.trim_spots]
      rw [if_pos h]
    refine ⟨?_, ?_, ?_⟩
    · rw [hs, List.take_append_drop]
    · rw [List.length_take]
      omega
    · rw [hs, List.length_drop]
      omega
  · intro h
    simp only [Model.trim_spots]
    rw [if_neg (by omega)]

/-- C6 witness: trimming three spots to two keeps the last two; trimming
one spot to two is the identity. -/
theorem c6_trim_spots_witness :
    (([sampleSpot 1, sampleSpot 2, sampleSpot 3].length > 2 ∧
      (({ baseModel with spots := [sampleSpot 1, sampleSpot 2, sampleSpot 3] } : Model).trim_spots 2).spots.length = 2) ∧
     ([sampleSpot 1].length ≤ 2 ∧
      ({ baseModel with spots := [sampleSpot 1] } : Model).trim_spots 2 = { baseModel with spots := [sampleSpot 1] })) := by
  constructor
  · exact ⟨by simp, ((c6_trim_spots { baseModel with spots := [sampleSpot 1, sampleSpot 2, sampleSpot 3] } 2).1 (by simp)).2.2⟩
  · exact ⟨by simp, (c6_trim_spots { baseModel with spots := [sampleSpot 1] } 2).2 (by simp)⟩

/-! ### Claim C7 -/

/-- C7: mutating an unknown receiver id (`change_receiver_mode`,
`frequency_up`, `frequency_down`, `update_receiver`) leaves the whole
state store unchanged and never reaches the send path — at most a
console log is produced, and no receiver is ever created. -/
theorem c7_unknown_id_noop (m : Model) (id : Uuid) (mode : Mode) (d : Int) (f : ℚ)
    (h : ∀ r ∈ m.receivers, r.id ≠ id) :
    m.change_receiver_mode id mode = (m, []) ∧
    m.frequency_up id d = (m, []) ∧
    m.frequency_down id d = (m, []) ∧
    (m.update_receiver id mode f).1 = m ∧
    (∀ c, ¬ emitsCommand (m.update_receiver id mode f).2 c) := by
  have hpos : listPosition (fun r => r.id == id) m.receivers = none := by
    rw [listPosition_eq_none_iff]
    intro x hx
    simpa using h x hx
  refine ⟨?_, frequency_up_none m id d hpos, frequency_down_none m id d hpos, ?_, ?_⟩
  · simp [Model.change_receiver_mode, hpos]
  · simp [Model.update_receiver, hpos]
  · intro c
    simp [Model.update_receiver, hpos, emitsCommand]

/-- C7 witness: on the empty model, id 5 is unknown and all four
operations are no-ops. -/
theorem c7_unknown_id_noop_witness :
    (∀ r ∈ (baseModel : Model).receivers, r.id ≠ 5) ∧
    baseModel.change_receiver_mode 5 ⟨"USB"⟩ = (baseModel, []) ∧
    baseModel.frequency_up 5 3 = (baseModel, []) ∧
    baseModel.frequency_down 5 3 = (baseModel, []) ∧
    (baseModel.update_receiver 5 ⟨"USB"⟩ 7000000).1 = baseModel := by
  have h : ∀ r ∈ (baseModel : Model).receivers, r.id ≠ 5 := by
    intro r hr
    simp [baseModel] at hr
  have H := c7_unknown_id_noop baseModel 5 ⟨"USB"⟩ 3 7000000 h
  exact ⟨h, H.1, H.2.1, H.2.2.1, H.2.2.2.1⟩

/-! ### Claim C8 -/

/-- C8: `send_command` while `wss` is `None` transmits no frame and does
not panic — it logs a not-connected error, drops the command, and
leaves the model unchanged; in particular any send after `disconnect`
behaves exactly so. -/
theorem c8_send_not_connected (m : Model) (cmd : Command) (h : m.wss = none) :
    m.send_command cmd = (m, [Effect.logNotConnected cmd]) ∧
    (∀ c, Effect.sendFrame c ∉ (m.send_command cmd).2) ∧
    (∀ m2 : Model, m2.disconnect.send_command cmd = (m2.disconnect, [Effect.logNotConnected cmd])) := by
  refine ⟨?_, ?_, ?_⟩
  · simp [Model.send_command, sendEffects, h]
  · intro c
    simp [Model.send_command, sendEffects, h]
  · intro m2
    simp [Model.send_command, sendEffects, Model.disconnect]

/-- C8 witness: on the never-connected empty model, sending `SetMode`
produces only the not-connected log line. -/
theorem c8_send_not_connected_witness :
    (baseModel : Model).wss = none ∧
    baseModel.send_command (Command.SetMode ⟨"USB"⟩ 1) =
      (baseModel, [Effect.logNotConnected (Command.SetMode ⟨"USB"⟩ 1)]) :=
  ⟨rfl, (c8_send_not_connected baseModel (Command.SetMode ⟨"USB"⟩ 1) rfl).1⟩

/-! ### Claim C9 -/

/-- C9 counterexample: `connect` on an already-connected model performs
no teardown of the prior connection — the claim that the prior
connection is torn down before the new one is installed is false on a
model whose `wss` holds handle 0. -/
theorem c9_counterexample :
    ¬ (∀ (m : Model) (addr : String) (h : Nat), m.wss = some h →
        Effect.wsClose h ∈ (m.connect addr).2) := by
  intro hclaim
  have h := hclaim { baseModel with wss := some 0 } "ws://localhost:4649/Spark" 0 rfl
  simp [Model.connect] at h

/-- C9 amended: the model stores at most one connection handle (an
`Option`); `connect` while already connected installs a fresh handle
and merely discards the stored one — it emits no close/teardown of the
prior connection (whose socket the source never closes) — and
`disconnect` likewise only clears the stored handle. -/
theorem c9_single_connection (m : Model) (addr : String) :
    (m.connect addr).1.wss = some m.nextConn ∧
    (m.connect addr).2 = [Effect.wsOpen addr] ∧
    (∀ h, Effect.wsClose h ∉ (m.connect addr).2) ∧
    m.disconnect.wss = none := by
  refine ⟨rfl, rfl, ?_, rfl⟩
  intro h
  simp [Model.connect]

theorem listPosition_some_exists_mem {α : Type} (p : α → Bool) (l : List α) (i : Nat)
    (h : listPosition p l = some i) : ∃ x ∈ l, p x = true := by
  induction l generalizing i with
  | nil => simp [listPosition] at h
  | cons x xs ih =>
    by_cases hx : p x
    · exact ⟨x, by simp, hx⟩
    · simp [listPosition, hx] at h
      obtain ⟨n, hn, -⟩ := h
      obtain ⟨y, hy, hpy⟩ := ih n hn
      exact ⟨y, by simp [hy], hpy⟩

/-! ### Claim C5 -/

/-- C5: `add_spot` issues a background lookup and records a `Requested`
entry exactly when the spot's callsign has no cache entry, its prefix
resolves, and its derived country is the United States; for any other
callsign without an entry, nothing is requested and no entry is
created. -/
theorem c5_lookup_iff (m : Model) (s : Spot) :
    ((((m.add_spot s).1.callsigns = m.callsigns ++ [CallsignInfo.Requested s.call]) ∧
       (∃ u, (m.add_spot s).2 = [Effect.fetchStart u])) ↔
      ((∀ e ∈ m.callsigns, e.call.call ≠ s.call.call) ∧
        (∃ p, s.call.callPrefix = some p) ∧ s.call.country = some Country.UnitedStates)) ∧
    (¬ ((∀ e ∈ m.callsigns, e.call.call ≠ s.call.call) ∧
        (∃ p, s.call.callPrefix = some p) ∧ s.call.country = some Country.UnitedStates) →
      ((m.add_spot s).1.callsigns = m.callsigns ∧ (m.add_spot s).2 = [])) := by
  cases hpos : listPosition (fun c => c.call.call == s.call.call) m.callsigns with
  | some i =>
    have hmem : ∃ x ∈ m.callsigns, x.call.call = s.call.call := by
      obtain ⟨x, hx, hpx⟩ := listPosition_some_exists_mem _ _ _ hpos
      exact ⟨x, hx, by simpa using hpx⟩
    have hunch : (m.add_spot s).1.callsigns = m.callsigns ∧ (m.add_spot s).2 = [] := by
      cases hE : m.callsigns[i]?.getD default <;> simp [Model.add_spot, hpos, hE]
    constructor
    · constructor
      · rintro ⟨h1, -⟩
        rw [hunch.1] at h1
        have hlen := congrArg List.length h1
        simp at hlen
      · rintro ⟨hnone, -⟩
        obtain ⟨x, hx, hpx⟩ := hmem
        exact absurd hpx (hnone x hx)
    · intro
      exact hunch
  | none =>
    have hnone : ∀ e ∈ m.callsigns, e.call.call ≠ s.call.call := by
      rw [listPosition_eq_none_iff] at hpos
      intro e he
      have := hpos e he
      simpa using this
    cases hpre : s.call.callPrefix with
    | none =>
      have hunch : (m.add_spot s).1.callsigns = m.callsigns ∧ (m.add_spot s).2 = [] := by
        simp [Model.add_spot, hpos, hpre]
      constructor
      · constructor
        · rintro ⟨h1, -⟩
          rw [hunch.1] at h1
          have hlen := congrArg List.length h1
          simp at hlen
        · rintro ⟨-, ⟨p, hp⟩, -⟩
          exact Option.noConfusion hp
      · intro
        exact hunch
    | some p =>
      by_cases hc : s.call.country = some Country.UnitedStates
      · have hres : (m.add_spot s).1.callsigns = m.callsigns ++ [CallsignInfo.Requested s.call] ∧
            (m.add_spot s).2 = [Effect.fetchStart ("/out/" ++ p ++ "/" ++ s.call.call ++ ".json")] := by
          simp [Model.add_spot, hpos, hpre, hc]
        constructor
        · constructor
          · intro
            exact ⟨hnone, ⟨p, rfl⟩, hc⟩
          · intro
            exact ⟨hres.1, ⟨_, hres.2⟩⟩
        · intro hn
          exact absurd ⟨hnone, ⟨p, rfl⟩, hc⟩ hn
      · have hunch : (m.add_spot s).1.callsigns = m.callsigns ∧ (m.add_spot s).2 = [] := by
          simp [Model.add_spot, hpos, hpre, hc]
        constructor
        · constructor
          · rintro ⟨h1, -⟩
            rw [hunch.1] at h1
            have hlen := congrArg List.length h1
            simp at hlen
          · rintro ⟨-, -, hcc⟩
            exact absurd hcc hc
        · intro
          exact hunch

/-- C5 witness: on the empty cache a United States spot triggers a
lookup and a `Requested` entry, while a German spot triggers neither. -/
theorem c5_lookup_iff_witness :
    ((baseModel.add_spot usSpot).1.callsigns = baseModel.callsigns ++ [CallsignInfo.Requested usSpot.call] ∧
      (∃ u, (baseModel.add_spot usSpot).2 = [Effect.fetchStart u])) ∧
    ((baseModel.add_spot dlSpot).1.callsigns = baseModel.callsigns ∧ (baseModel.add_spot dlSpot).2 = []) := by
  constructor
  · refine (c5_lookup_iff baseModel usSpot).1.mpr ⟨?_, ⟨"K1", rfl⟩, rfl⟩
    intro e he
    simp [baseModel] at he
  · refine (c5_lookup_iff baseModel dlSpot).2 ?_
    rintro ⟨-, -, hc⟩
    simp [dlSpot, dlCall] at hc

/-! ### Claim C1 -/

/-- C1: the dedup invariant — at most one cache entry (Requested, Found
or NotFound) per callsign — is preserved by `add_spot` and by
`cache_callsign_info`; moreover `add_spot` on a spot whose callsign
already has a non-`Found` entry (Requested or NotFound) appends the
spot with its `Call` untouched, issues no lookup and changes no cache
entry. -/
theorem c1_dedup_invariant (m : Model) (s : Spot) (c : Call)
    (h : callsignsUnique m.callsigns) :
    callsignsUnique (m.add_spot s).1.callsigns ∧
    callsignsUnique (m.cache_callsign_info c).callsigns ∧
    (∀ i, listPosition (fun e => e.call.call == s.call.call) m.callsigns = some i →
      (m.callsigns.getD i default).isFound = false →
      m.add_spot s = ({ m with spots := m.spots ++ [s] }, [])) := by
  refine ⟨?_, callsignsUnique_cacheCallsigns m.callsigns c h, ?_⟩
  · cases hpos : listPosition (fun e => e.call.call == s.call.call) m.callsigns with
    | some i =>
      have hunch : (m.add_spot s).1.callsigns = m.callsigns := by
        cases hE : m.callsigns[i]?.getD default <;> simp [Model.add_spot, hpos, hE]
      rw [hunch]
      exact h
    | none =>
      cases hpre : s.call.callPrefix with
      | none =>
        have hunch : (m.add_spot s).1.callsigns = m.callsigns := by
          simp [Model.add_spot, hpos, hpre]
        rw [hunch]
        exact h
      | some p =>
        by_cases hc : s.call.country = some Country.UnitedStates
        · have hres : (m.add_spot s).1.callsigns = m.callsigns ++ [CallsignInfo.Requested s.call] := by
            simp [Model.add_spot, hpos, hpre, hc]
          rw [hres]
          intro cs
          rw [countEntries_append_single]
          by_cases hcs : s.call.call = cs
          · subst hcs
            rw [countEntries_zero_of_pos_none m.callsigns s.call.call hpos]
            have hkey : (CallsignInfo.Requested s.call).call.call = s.call.call := rfl
            rw [if_pos hkey]
          · have hne : ¬ (CallsignInfo.Requested s.call).call.call = cs := hcs
            rw [if_neg hne]
            have := h cs
            omega
        · have hunch : (m.add_spot s).1.callsigns = m.callsigns := by
            simp [Model.add_spot, hpos, hpre, hc]
          rw [hunch]
          exact h
  · intro i hpos hfound
    rw [List.getD_eq_getElem?_getD] at hfound
    cases hE : m.callsigns[i]?.getD default with
    | Requested c2 => simp [Model.add_spot, hpos, hE]
    | Found c2 =>
      rw [hE] at hfound
      simp [CallsignInfo.isFound] at hfound
    | NotFound c2 => simp [Model.add_spot, hpos, hE]

/-- C1 witness: with a `Requested` entry for K1ABC in the cache, adding
another K1ABC spot changes neither the cache nor the spot and issues
nothing. -/
theorem c1_dedup_invariant_witness :
    callsignsUnique [CallsignInfo.Requested usCall] ∧
    ({ baseModel with callsigns := [CallsignInfo.Requested usCall] } : Model).add_spot usSpot =
      ({ baseModel with callsigns := [CallsignInfo.Requested usCall], spots := [usSpot] }, []) := by
  have hu : callsignsUnique [CallsignInfo.Requested usCall] := by
    intro cs
    have hle := List.length_filter_le (fun e => (CallsignInfo.call e).call == cs) [CallsignInfo.Requested usCall]
    simpa [countEntries] using hle
  refine ⟨hu, ?_⟩
  have hpos : listPosition (fun e => e.call.call == usSpot.call.call)
      ({ baseModel with callsigns := [CallsignInfo.Requested usCall] } : Model).callsigns = some 0 := by
    simp [listPosition, CallsignInfo.call, usCall, usSpot, baseModel]
  have H := (c1_dedup_invariant { baseModel with callsigns := [CallsignInfo.Requested usCall] } usSpot usCall hu).2.2 0 hpos rfl
  simpa [baseModel] using H

/-! ### Claim C4 -/

/-- C4: when `cache_callsign_info` records a `Found` entry for callsign
C, every stored spot whose callsign equals C (string equality) is
rewritten to carry the enriched `Call` (pointwise: position `i` holds
the old spot, enriched exactly when its callsign matches), and any spot
subsequently arriving through `add_spot` with callsign C is enriched
synchronously from the cache with no lookup issued. -/
theorem c4_found_enrichment (m : Model) (call : Call) (s : Spot)
    (hs : s.call.call = call.call) :
    (∀ i, (m.cache_callsign_info call).spots.get? i =
        (m.spots.get? i).map (fun t => if t.call.call == call.call then { t with call := call } else t)) ∧
    (∀ t ∈ (m.cache_callsign_info call).spots, t.call.call = call.call → t.call = call) ∧
    ((m.cache_callsign_info call).add_spot s).1.spots =
      (m.cache_callsign_info call).spots ++ [{ s with call := call }] ∧
    ((m.cache_callsign_info call).add_spot s).2 = [] := by
  have hspots : (m.cache_callsign_info call).spots =
      m.spots.map (fun t => if t.call.call == call.call then { t with call := call } else t) := rfl
  obtain ⟨j, hj1, hj2⟩ := listPosition_cacheCallsigns m.callsigns call
  have hj1' : listPosition (fun e => e.call.call == s.call.call)
      (m.cache_callsign_info call).callsigns = some j := by
    show listPosition (fun e => e.call.call == s.call.call) (cacheCallsigns m.callsigns call) = some j
    rw [hs]
    exact hj1
  have hj2' : (m.cache_callsign_info call).callsigns[j]?.getD default = CallsignInfo.Found call := by
    rw [← List.getD_eq_getElem?_getD]
    exact hj2
  refine ⟨?_, ?_, ?_, ?_⟩
  · intro i
    rw [hspots, List.get?_map]
  · intro t ht htc
    rw [hspots] at ht
    obtain ⟨t0, ht0, hft⟩ := List.mem_map.mp ht
    by_cases h0 : t0.call.call = call.call
    · rw [← hft]
      simp [h0]
    · have ht0' : t = t0 := by
        rw [← hft]
        simp [h0]
      rw [ht0'] at htc
      exact absurd htc h0
  · simp [Model.add_spot, hj1', hj2']
  · simp [Model.add_spot, hj1', hj2']

/-- C4 witness: caching the enriched K1ABC record rewrites the stored
K1ABC spot, and the next K1ABC spot is enriched with no lookup. -/
theorem c4_found_enrichment_witness :
    usSpot.call.call = usCallFull.call ∧
    (∀ t ∈ (({ baseModel with spots := [usSpot] } : Model).cache_callsign_info usCallFull).spots,
      t.call.call = usCallFull.call → t.call = usCallFull) ∧
    ((({ baseModel with spots := [usSpot] } : Model).cache_callsign_info usCallFull).add_spot usSpot).2 = [] := by
  refine ⟨rfl, ?_, ?_⟩
  · exact (c4_found_enrichment { baseModel with spots := [usSpot] } usCallFull usSpot rfl).2.1
  · exact (c4_found_enrichment { baseModel with spots := [usSpot] } usCallFull usSpot rfl).2.2.2

/-! ### Concrete f32 rounding facts -/

theorem normLoop_fix (n : Nat) (q : ℚ) (e : Int) (h1 : 8388608 ≤ q) (h2 : q < 16777216) :
    normLoop (n + 1) q e = (q, e) := by
  simp [normLoop, not_lt.mpr h1, not_le.mpr h2]

theorem normLoop_halve (n : Nat) (q : ℚ) (e : Int) (h : 16777216 ≤ q) :
    normLoop (n + 1) q e = normLoop n (q / 2) (e + 1) := by
  have h1 : ¬ q < 8388608 := not_lt.mpr (le_trans (by norm_num) h)
  simp [normLoop, h1, h]

theorem roundF32_16777217 : roundF32 16777217 = 16777216 := by
  have h1 : normLoop 128 16777217 0 = (16777217 / 2, 1) := by
    rw [show (128 : Nat) = 127 + 1 from rfl, normLoop_halve 127 16777217 0 (by norm_num)]
    rw [show (127 : Nat) = 126 + 1 from rfl, normLoop_fix 126 (16777217 / 2) (0 + 1) (by norm_num) (by norm_num)]
    norm_num
  exact roundF32_eval 16777217 (16777217 / 2) 16777216 1 8388608
    (by norm_num) h1 (by norm_num [tieRound]) (by norm_num)

theorem roundF32_16777215 : roundF32 16777215 = 16777215 := by
  have h1 : normLoop 128 16777215 0 = (16777215, 0) := by
    rw [show (128 : Nat) = 127 + 1 from rfl]
    exact normLoop_fix 127 16777215 0 (by norm_num) (by norm_num)
  exact roundF32_eval 16777215 16777215 16777215 0 16777215
    (by norm_num) h1 (by norm_num [tieRound]) (by norm_num)

theorem roundF32_100000001 : roundF32 100000001 = 100000000 := by
  have h1 : normLoop 128 100000001 0 = (100000001 / 8, 3) := by
    rw [show (128 : Nat) = 127 + 1 from rfl, normLoop_halve 127 100000001 0 (by norm_num)]
    rw [show (127 : Nat) = 126 + 1 from rfl, normLoop_halve 126 (100000001 / 2) (0 + 1) (by norm_num)]
    rw [show (126 : Nat) = 125 + 1 from rfl, normLoop_halve 125 (100000001 / 2 / 2) (0 + 1 + 1) (by norm_num)]
    rw [show (125 : Nat) = 124 + 1 from rfl, normLoop_fix 124 (100000001 / 2 / 2 / 2) (0 + 1 + 1 + 1) (by norm_num) (by norm_num)]
    norm_num
  exact roundF32_eval 100000001 (100000001 / 8) 100000000 3 12500000
    (by norm_num) h1 (by norm_num [tieRound]) (by norm_num)

theorem roundF32_14084000 : roundF32 14084000 = 14084000 := by
  have h1 : normLoop 128 14084000 0 = (14084000, 0) := by
    rw [show (128 : Nat) = 127 + 1 from rfl]
    exact normLoop_fix 127 14084000 0 (by norm_num) (by norm_num)
  exact roundF32_eval 14084000 14084000 14084000 0 14084000
    (by norm_num) h1 (by norm_num [tieRound]) (by norm_num)

theorem roundF32_14074000 : roundF32 14074000 = 14074000 := by
  have h1 : normLoop 128 14074000 0 = (14074000, 0) := by
    rw [show (128 : Nat) = 127 + 1 from rfl]
    exact normLoop_fix 127 14074000 0 (by norm_num) (by norm_num)
  exact roundF32_eval 14074000 14074000 14074000 0 14074000
    (by norm_num) h1 (by norm_num [tieRound]) (by norm_num)

theorem roundF32_14064000 : roundF32 14064000 = 14064000 := by
  have h1 : normLoop 128 14064000 0 = (14064000, 0) := by
    rw [show (128 : Nat) = 127 + 1 from rfl]
    exact normLoop_fix 127 14064000 0 (by norm_num) (by norm_num)
  exact roundF32_eval 14064000 14064000 14064000 0 14064000
    (by norm_num) h1 (by norm_num [tieRound]) (by norm_num)

theorem specStep_4 : specStep 4 = 10000 := by
  norm_num [specStep, show Int.toNat 4 = 4 from rfl]

theorem specStep_8 : specStep 8 = 1 := by
  norm_num [specStep, show Int.toNat 0 = 0 from rfl]

/-! ### Claim C2 -/

/-- C2 counterexample: at 16777216 Hz (= 2^24, an exactly representable
f32 frequency) and digit 8, `frequency_up` is absorbed by f32 rounding
(16777217 rounds back to 16777216) while `frequency_down` lands on
16777215, so up-then-down leaves the receiver at 16777215 ≠ 16777216 —
the inverse law as claimed is false at this receiver and digit. -/
theorem c2_counterexample :
    (mBig.receivers.getD 0 default).frequency = 16777216 ∧
    (((mBig.frequency_up 1 8).1.frequency_down 1 8).1.receivers.getD 0 default).frequency = 16777215 ∧
    (16777215 : ℚ) ≠ 16777216 := by
  have hup : stepChainUp (16777216 : ℚ) 8 = 16777216 := by
    norm_num [stepChainUp, f32add, roundF32_16777217]
  have hdn : stepChainDown (16777216 : ℚ) 8 = 16777215 := by
    norm_num [stepChainDown, f32sub, roundF32_16777215]
  have hpos : listPosition (fun r => r.id == (1 : Nat)) mBig.receivers = some 0 := by
    simp [mBig, baseModel, listPosition]
  have h1 := frequency_up_eq mBig 1 8 0 hpos
  have hrec1 : (mBig.frequency_up 1 8).1.receivers = [⟨1, 16777216, ⟨"USB"⟩⟩] := by
    rw [h1]
    norm_num [setReceiverFreq, mBig, baseModel, hup]
  have hpos2 : listPosition (fun r => r.id == (1 : Nat)) (mBig.frequency_up 1 8).1.receivers = some 0 := by
    rw [hrec1]
    simp [listPosition]
  have h2 := frequency_down_eq (mBig.frequency_up 1 8).1 1 8 0 hpos2
  refine ⟨rfl, ?_, by norm_num⟩
  rw [h2]
  norm_num [setReceiverFreq, hrec1, hdn]

/-- C2 amended: for a receiver present at index `i` and digit d ∈ [0,8],
if both the receiver's frequency and its stepped value are exactly
representable in f32 (fixed points of the rounding), then
`frequency_up` followed by `frequency_down` restores the receiver list
— and hence that receiver's frequency — exactly. -/
theorem c2_inverse_law (m : Model) (receiver_id : Uuid) (d : Int) (i : Nat)
    (hpos : listPosition (fun r => r.id == receiver_id) m.receivers = some i)
    (hd0 : 0 ≤ d) (hd8 : d ≤ 8)
    (hrep : roundF32 ((m.receivers.getD i default).frequency + specStep d) =
      (m.receivers.getD i default).frequency + specStep d)
    (hf : roundF32 (m.receivers.getD i default).frequency = (m.receivers.getD i default).frequency) :
    ((m.frequency_up receiver_id d).1.frequency_down receiver_id d).1.receivers = m.receivers := by
  have hlt := listPosition_some_lt _ _ _ hpos
  have hup : stepChainUp (m.receivers.getD i default).frequency d =
      (m.receivers.getD i default).frequency + specStep d := by
    rw [stepChainUp_eq_specStep _ _ hd0 hd8, f32add, hrep]
  have h1 := frequency_up_eq m receiver_id d i hpos
  have hrec1 : (m.frequency_up receiver_id d).1.receivers =
      m.receivers.set i ({ m.receivers.getD i default with frequency := (m.receivers.getD i default).frequency + specStep d }) := by
    rw [h1]
    simp only [setReceiverFreq, hup]
  have hpv : (fun r => r.id == receiver_id)
      ({ m.receivers.getD i default with frequency := (m.receivers.getD i default).frequency + specStep d } : Receiver) = true :=
    listPosition_some_getD _ _ _ _ hpos
  have hpos2 : listPosition (fun r => r.id == receiver_id) (m.frequency_up receiver_id d).1.receivers = some i := by
    rw [hrec1]
    exact listPosition_set_of_pred _ _ _ _ hpos hpv
  have hget2 : (m.frequency_up receiver_id d).1.receivers.getD i default =
      { m.receivers.getD i default with frequency := (m.receivers.getD i default).frequency + specStep d } := by
    rw [hrec1]
    exact getD_set_self _ _ _ _ (by rw [hrec1] at hpos2; simpa using listPosition_some_lt _ _ _ hpos2)
  have hdn : stepChainDown ((m.frequency_up receiver_id d).1.receivers.getD i default).frequency d =
      (m.receivers.getD i default).frequency := by
    rw [hget2]
    show stepChainDown ((m.receivers.getD i default).frequency + specStep d) d = _
    rw [stepChainDown_eq_specStep _ _ hd0 hd8, f32sub, add_sub_cancel_right]
    exact hf
  have h2 := frequency_down_eq (m.frequency_up receiver_id d).1 receiver_id d i hpos2
  rw [h2]
  show setReceiverFreq (m.frequency_up receiver_id d).1.receivers i
      (stepChainDown ((m.frequency_up receiver_id d).1.receivers.getD i default).frequency d) = m.receivers
  simp only [setReceiverFreq]
  rw [hdn, hget2, hrec1, List.set_set]
  exact set_getD_self m.receivers i default hlt

/-- C2 witness: at 14.074 MHz and digit 4 both values are representable
and up-then-down restores the receiver exactly. -/
theorem c2_inverse_law_witness :
    roundF32 (14074000 + specStep 4) = 14074000 + specStep 4 ∧
    roundF32 (14074000 : ℚ) = 14074000 ∧
    ((mFreq.frequency_up 1 4).1.frequency_down 1 4).1.receivers = mFreq.receivers := by
  have hrep : roundF32 ((14074000 : ℚ) + specStep 4) = (14074000 : ℚ) + specStep 4 := by
    rw [show (14074000 : ℚ) + specStep 4 = 14084000 from by norm_num [specStep_4]]
    exact roundF32_14084000
  refine ⟨hrep, roundF32_14074000, ?_⟩
  exact c2_inverse_law mFreq 1 4 0 (by simp [mFreq, baseModel, listPosition])
    (by norm_num) (by norm_num) hrep roundF32_14074000

/-! ### Claim C3 -/

/-- C3 counterexample: at 100 MHz (exactly representable in f32, with
f32 spacing 8 Hz) and digit 8, `frequency_up` adds nothing — the exact
sum 100000001 rounds back to 100000000 — so the claim that the
operation always adds exactly 10^(8-d) Hz is false at this receiver
and digit. -/
theorem c3_counterexample :
    (mHuge.receivers.getD 0 default).frequency = 100000000 ∧
    (((mHuge.frequency_up 1 8).1.receivers.getD 0 default).frequency = 100000000) ∧
    (100000000 : ℚ) ≠ 100000000 + specStep 8 := by
  have hup : stepChainUp (100000000 : ℚ) 8 = 100000000 := by
    norm_num [stepChainUp, f32add, roundF32_100000001]
  have hpos : listPosition (fun r => r.id == (1 : Nat)) mHuge.receivers = some 0 := by
    simp [mHuge, baseModel, listPosition]
  have h1 := frequency_up_eq mHuge 1 8 0 hpos
  refine ⟨rfl, ?_, by norm_num [specStep_8]⟩
  rw [h1]
  norm_num [setReceiverFreq, mHuge, baseModel, hup]

/-- C3 amended: for a receiver present at index `i` and every digit
d ∈ [0,8], `frequency_up` sets the receiver's frequency to the f32
rounding of frequency + 10^(8-d) Hz — which is exactly +10^(8-d)
whenever that sum is representable — and always hands the send path a
SetFrequency command whose Frequency field is the post-mutation
frequency truncated to an integer and rendered as a string, with the
receiver's id; `frequency_down` behaves likewise with subtraction. -/
theorem c3_step_and_command (m : Model) (receiver_id : Uuid) (d : Int) (i : Nat)
    (hpos : listPosition (fun r => r.id == receiver_id) m.receivers = some i)
    (hd0 : 0 ≤ d) (hd8 : d ≤ 8) :
    (m.frequency_up receiver_id d).1.receivers =
      m.receivers.set i ({ m.receivers.getD i default with frequency := f32add (m.receivers.getD i default).frequency (specStep d) }) ∧
    emitsCommand (m.frequency_up receiver_id d).2
      (Command.SetFrequency (toString (f32toI32 (f32add (m.receivers.getD i default).frequency (specStep d)))) receiver_id) ∧
    (m.frequency_down receiver_id d).1.receivers =
      m.receivers.set i ({ m.receivers.getD i default with frequency := f32sub (m.receivers.getD i default).frequency (specStep d) }) ∧
    emitsCommand (m.frequency_down receiver_id d).2
      (Command.SetFrequency (toString (f32toI32 (f32sub (m.receivers.getD i default).frequency (specStep d)))) receiver_id) ∧
    (roundF32 ((m.receivers.getD i default).frequency + specStep d) = (m.receivers.getD i default).frequency + specStep d →
      f32add (m.receivers.getD i default).frequency (specStep d) = (m.receivers.getD i default).frequency + specStep d) ∧
    (roundF32 ((m.receivers.getD i default).frequency - specStep d) = (m.receivers.getD i default).frequency - specStep d →
      f32sub (m.receivers.getD i default).frequency (specStep d) = (m.receivers.getD i default).frequency - specStep d) := by
  have hup : stepChainUp (m.receivers.getD i default).frequency d =
      f32add (m.receivers.getD i default).frequency (specStep d) :=
    stepChainUp_eq_specStep _ _ hd0 hd8
  have hdn : stepChainDown (m.receivers.getD i default).frequency d =
      f32sub (m.receivers.getD i default).frequency (specStep d) :=
    stepChainDown_eq_specStep _ _ hd0 hd8
  have h1 := frequency_up_eq m receiver_id d i hpos
  have h2 := frequency_down_eq m receiver_id d i hpos
  refine ⟨?_, ?_, ?_, ?_, ?_, ?_⟩
  · rw [h1]
    simp only [setReceiverFreq, hup]
  · rw [h1, hup]
    exact emitsCommand_sendEffects m
      (Command.SetFrequency (toString (f32toI32 (f32add (m.receivers.getD i default).frequency (specStep d)))) receiver_id)
  · rw [h2]
    simp only [setReceiverFreq, hdn]
  · rw [h2, hdn]
    exact emitsCommand_sendEffects m
      (Command.SetFrequency (toString (f32toI32 (f32sub (m.receivers.getD i default).frequency (specStep d)))) receiver_id)
  · intro hrep
    exact hrep
  · intro hrep
    exact hrep

/-- C3 witness: the spec's example — a receiver at 14074000.0 stepped up
at digit 4 lands at exactly 14084000 (the sum is representable, so the
rounding is the identity) and the send path receives SetFrequency with
Frequency "14084000" and the receiver's id. -/
theorem c3_step_and_command_witness :
    (mFreq.frequency_up 1 4).1.receivers = [⟨1, 14084000, ⟨"USB"⟩⟩] ∧
    emitsCommand (mFreq.frequency_up 1 4).2 (Command.SetFrequency "14084000" 1) ∧
    roundF32 (14074000 + specStep 4) = 14074000 + specStep 4 ∧
    f32add 14074000 (specStep 4) = 14074000 + specStep 4 := by
  have H := c3_step_and_command mFreq 1 4 0 (by simp [mFreq, baseModel, listPosition])
    (by norm_num) (by norm_num)
  have hval : f32add (mFreq.receivers.getD 0 default).frequency (specStep 4) = 14084000 := by
    show roundF32 ((mFreq.receivers.getD 0 default).frequency + specStep 4) = 14084000
    rw [show ((mFreq.receivers.getD 0 default).frequency + specStep 4 : ℚ) = 14084000 from by norm_num [mFreq, baseModel, specStep_4]]
    exact roundF32_14084000
  have hrepUp : roundF32 ((14074000 : ℚ) + specStep 4) = (14074000 : ℚ) + specStep 4 := by
    rw [show (14074000 : ℚ) + specStep 4 = 14084000 from by norm_num [specStep_4]]
    exact roundF32_14084000
  refine ⟨?_, ?_, hrepUp, H.2.2.2.2.1 hrepUp⟩
  · rw [H.1, hval]
    norm_num [mFreq, baseModel]
  · have he := H.2.1
    have hstr : toString (f32toI32 (f32add (mFreq.receivers.getD 0 default).frequency (specStep 4))) = "14084000" := by
      rw [hval]
      rw [show f32toI32 (14084000 : ℚ) = 14084000 from by norm_num [f32toI32]]
      rfl
    rw [hstr] at he
    exact he

/-! ### Claim C10 -/

/-- C10: for a receiver present in the store, a digit outside [0,8]
(e.g. -1 or 9) leaves the model unchanged — no step branch fires — yet
still hands the send path a SetFrequency command carrying the unchanged
frequency as an integer string; with an unknown id the same calls are
complete no-ops that reach no send path. -/
theorem c10_invalid_digit (m : Model) (receiver_id : Uuid) (d : Int) (i : Nat)
    (hpos : listPosition (fun r => r.id == receiver_id) m.receivers = some i)
    (hd : d < 0 ∨ 8 < d) :
    (m.frequency_up receiver_id d).1 = m ∧
    emitsCommand (m.frequency_up receiver_id d).2
      (Command.SetFrequency (toString (f32toI32 (m.receivers.getD i default).frequency)) receiver_id) ∧
    (m.frequency_down receiver_id d).1 = m ∧
    emitsCommand (m.frequency_down receiver_id d).2
      (Command.SetFrequency (toString (f32toI32 (m.receivers.getD i default).frequency)) receiver_id) ∧
    (∀ m2 : Model, listPosition (fun r => r.id == receiver_id) m2.receivers = none →
      m2.frequency_up receiver_id d = (m2, []) ∧ m2.frequency_down receiver_id d = (m2, [])) := by
  have hlt := listPosition_some_lt _ _ _ hpos
  have hupout : stepChainUp (m.receivers.getD i default).frequency d =
      (m.receivers.getD i default).frequency := stepChainUp_out _ _ hd
  have hdnout : stepChainDown (m.receivers.getD i default).frequency d =
      (m.receivers.getD i default).frequency := stepChainDown_out _ _ hd
  have hset : m.receivers.set i ({ m.receivers.getD i default with frequency := (m.receivers.getD i default).frequency }) = m.receivers :=
    set_getD_self m.receivers i default hlt
  refine ⟨?_, ?_, ?_, ?_, ?_⟩
  · rw [frequency_up_eq m receiver_id d i hpos]
    show { m with receivers := setReceiverFreq m.receivers i (stepChainUp (m.receivers.getD i default).frequency d) } = m
    simp only [setReceiverFreq]
    rw [hupout, hset]
  · rw [frequency_up_eq m receiver_id d i hpos, hupout]
    exact emitsCommand_sendEffects m
      (Command.SetFrequency (toString (f32toI32 (m.receivers.getD i default).frequency)) receiver_id)
  · rw [frequency_down_eq m receiver_id d i hpos]
    show { m with receivers := setReceiverFreq m.receivers i (stepChainDown (m.receivers.getD i default).frequency d) } = m
    simp only [setReceiverFreq]
    rw [hdnout, hset]
  · rw [frequency_down_eq m receiver_id d i hpos, hdnout]
    exact emitsCommand_sendEffects m
      (Command.SetFrequency (toString (f32toI32 (m.receivers.getD i default).frequency)) receiver_id)
  · intro m2 hnone
    exact ⟨frequency_up_none m2 receiver_id d hnone, frequency_down_none m2 receiver_id d hnone⟩

/-- C10 witness: digit 9 on the known receiver changes nothing but still
hands the send path SetFrequency "14074000"; on the empty model the
same call is a silent no-op. -/
theorem c10_invalid_digit_witness :
    ((8 : Int) < 9 ∨ (9 : Int) < 0) ∧
    (mFreq.frequency_up 1 9).1 = mFreq ∧
    emitsCommand (mFreq.frequency_up 1 9).2 (Command.SetFrequency "14074000" 1) ∧
    (mFreq.frequency_down 1 9).1 = mFreq ∧
    baseModel.frequency_up 1 9 = (baseModel, []) := by
  have H := c10_invalid_digit mFreq 1 9 0 (by simp [mFreq, baseModel, listPosition])
    (Or.inr (by norm_num))
  have hstr : toString (f32toI32 (mFreq.receivers.getD 0 default).frequency) = "14074000" := by
    rw [show ((mFreq.receivers.getD 0 default).frequency : ℚ) = 14074000 from by norm_num [mFreq, baseModel]]
    rw [show f32toI32 (14074000 : ℚ) = 14074000 from by norm_num [f32toI32]]
    rfl
  refine ⟨Or.inl (by norm_num), H.1, ?_, H.2.2.1, ?_⟩
  · have he := H.2.1
    rw [hstr] at he
    exact he
  · exact (H.2.2.2.2 baseModel (by simp [baseModel, listPosition])).1
